import Mathlib

/-!
Structural equality of decoded JSON values (`equal.go`).

A shallow embedding of `typeSwitchKind`, `deepEqual` and `deepValueEqual`
from `equal.go`, together with the properties of the equality engine.

* A Go `interface{}` holding a decoded JSON value is a `Value`.
* A `float64` is its IEEE-754 bit pattern; `==` on it is `Float64.eq`.
* A `map[string]interface{}` is the list of its entries, in the order in
  which `range` visits them; a real Go map has pairwise distinct keys,
  which is the predicate `uniqueKeys`.
* A call that panics returns `none`; a call that returns `b` gives `some b`.
-/

namespace JsonDiff

/-- A `float64`, given by its 64-bit IEEE-754 pattern (taken modulo `2^64`). -/
structure Float64 where
  bits : Nat
deriving DecidableEq, Repr

namespace Float64

/-- The 11 exponent bits. -/
def exponent (f : Float64) : Nat := (f.bits / 2 ^ 52) % 2 ^ 11

/-- The 52 fraction bits. -/
def fraction (f : Float64) : Nat := f.bits % 2 ^ 52

/-- NaN: all exponent bits set and a non-zero fraction. -/
def isNaN (f : Float64) : Bool := f.exponent == 2047 && f.fraction != 0

/-- Positive or negative zero: everything but the sign bit is zero. -/
def isZero (f : Float64) : Bool := f.bits % 2 ^ 63 == 0

/-- The Go operator `==` on `float64`: a NaN equals nothing, the two zeros
are equal, any other two values are equal when their bits are. -/
def eq (a b : Float64) : Bool :=
  !a.isNaN && !b.isNaN && ((a.isZero && b.isZero) || a.bits % 2 ^ 64 == b.bits % 2 ^ 64)

end Float64

/-- The constants of `reflect.Kind`. -/
inductive Kind
  | Invalid | Bool | Int | Int8 | Int16 | Int32 | Int64
  | Uint | Uint8 | Uint16 | Uint32 | Uint64 | Uintptr
  | Float32 | Float64 | Complex64 | Complex128
  | Array | Chan | Func | Interface | Map | Ptr | Slice | String | Struct
  | UnsafePointer
deriving DecidableEq, Repr

/-- The dynamic content of an `interface{}` handed to the equality engine.
`other tag` stands for a value of any Go type that the type switch of
`typeSwitchKind` does not list (an `int`, a struct, a typed nil pointer ...). -/
inductive Value
  | null
  | bool (b : Bool)
  | float (f : Float64)
  | str (s : String)
  | number (s : String)
  | array (xs : List Value)
  | object (kvs : List (String × Value))
  | other (tag : Nat)
deriving Repr

/-- The test `i == nil` on an interface value. -/
def Value.isNil : Value → Bool
  | .null => true
  | _ => false

/-- The function `typeSwitchKind` of `equal.go`: the kind of an interface
value, `reflect.Invalid` signalling an unsupported type. -/
def typeSwitchKind (i : Value) : Kind :=
  match i with
  | .str _ => Kind.String
  | .number _ => Kind.String
  | .bool _ => Kind.Bool
  | .float _ => Kind.Float64
  | .null => Kind.Ptr
  | .array _ => Kind.Slice
  | .object _ => Kind.Map
  | .other _ => Kind.Invalid

/-- The function `areComparable` of `equal.go`. -/
def areComparable (i1 i2 : Value) : Bool :=
  typeSwitchKind i1 == typeSwitchKind i2

mutual

/-- The function `deepEqual` of `equal.go`: the nil test (`src == tgt` when
either side is nil), the kind test, then `deepValueEqual`. -/
def deepEqual (src tgt : Value) : Option Bool :=
  if src.isNil || tgt.isNil then
    some (src.isNil && tgt.isNil)
  else
    let srcKind := typeSwitchKind src
    if srcKind != typeSwitchKind tgt then
      some false
    else
      deepValueEqual src tgt srcKind
termination_by (sizeOf src, 1)

/-- The function `deepValueEqual` of `equal.go`, a switch on `kind`. A failed
type assertion and the `default` branch both panic. -/
def deepValueEqual (src tgt : Value) (kind : Kind) : Option Bool :=
  match kind with
  | .String =>
    match src with
    | .number v =>
      match tgt with
      | .number w => some (v == w)
      | _ => none
    | .str s =>
      match tgt with
      | .str t => some (s == t)
      | _ => none
    | _ => none
  | .Bool =>
    match src, tgt with
    | .bool a, .bool b => some (a == b)
    | _, _ => none
  | .Float64 =>
    match src, tgt with
    | .float a, .float b => some (Float64.eq a b)
    | _, _ => none
  | .Slice =>
    match src with
    | .array oarr =>
      match tgt with
      | .array narr =>
        if oarr.length != narr.length then some false
        else sliceLoop oarr narr
      | _ => none
    | _ => none
  | .Map =>
    match src with
    | .object oobj =>
      match tgt with
      | .object nobj =>
        if oobj.length != nobj.length then some false
        else mapLoop oobj nobj
      | _ => none
    | _ => none
  | _ => none
termination_by (sizeOf src, 0)

/-- The loop `for i := 0; i < len(oarr); i++` of the `reflect.Slice` case,
on the elements not yet visited. Running out of `narr` is the index panic
(excluded by the length test that precedes the loop). -/
def sliceLoop (oarr narr : List Value) : Option Bool :=
  match oarr, narr with
  | [], _ => some true
  | _ :: _, [] => none
  | x :: xs, y :: ys =>
    match deepEqual x y with
    | none => none
    | some false => some false
    | some true => sliceLoop xs ys
termination_by (sizeOf oarr, 0)

/-- The loop `for k := range oobj` of the `reflect.Map` case, on the entries
of `oobj` not yet visited; `v1` is `oobj[k]` and `nobj.lookup k` is the
two-valued index expression `nobj[k]`. -/
def mapLoop (oobj nobj : List (String × Value)) : Option Bool :=
  match oobj with
  | [] => some true
  | (k, v1) :: rest =>
    match nobj.lookup k with
    | none => some false
    | some v2 =>
      match deepEqual v1 v2 with
      | none => none
      | some false => some false
      | some true => mapLoop rest nobj
termination_by (sizeOf oobj, 0)

end

/-! ### Well-formedness of decoded values -/

mutual

/-- Every object inside the value, at any depth, has pairwise distinct keys
(what a Go `map[string]interface{}` guarantees by construction). -/
def Value.uniqueKeys : Value → Bool
  | .array xs => uniqueKeysList xs
  | .object kvs => (kvs.map Prod.fst).Nodup && uniqueKeysEntries kvs
  | _ => true

/-- Unique keys in every element of an array. -/
def uniqueKeysList : List Value → Bool
  | [] => true
  | x :: xs => x.uniqueKeys && uniqueKeysList xs

/-- Unique keys in every value of an object. -/
def uniqueKeysEntries : List (String × Value) → Bool
  | [] => true
  | (_, v) :: rest => v.uniqueKeys && uniqueKeysEntries rest

end

mutual

/-- The value is built only from null, booleans, native numbers other than
NaN, strings, numeric tokens, arrays and objects. -/
def Value.closed : Value → Bool
  | .float f => !f.isNaN
  | .other _ => false
  | .array xs => closedList xs
  | .object kvs => closedEntries kvs
  | _ => true

/-- Every element of an array is closed. -/
def closedList : List Value → Bool
  | [] => true
  | x :: xs => x.closed && closedList xs

/-- Every value of an object is closed. -/
def closedEntries : List (String × Value) → Bool
  | [] => true
  | (_, v) :: rest => v.closed && closedEntries rest

end

/-- A well-formed decoded value: in the closed union, without NaN, and with
unique keys in every object. -/
def Value.wellFormed (v : Value) : Bool := v.closed && v.uniqueKeys

/-! ### Nested positions -/

/-- A value with one designated nested position: the chain of array indices
and object keys from the root to the position, with the siblings on the way
(`pre` before the position, `post` after it). -/
inductive Ctx
  | hole
  | arr (pre : List Value) (c : Ctx) (post : List Value)
  | obj (pre : List (String × Value)) (k : String) (c : Ctx) (post : List (String × Value))

/-- The value obtained by putting `v` at the designated position. -/
def Ctx.plug : Ctx → Value → Value
  | .hole, v => v
  | .arr pre c post, v => .array (pre ++ c.plug v :: post)
  | .obj pre k c post, v => .object (pre ++ (k, c.plug v) :: post)

/-- The siblings along the path are well-formed and the keys of every object
on the path, the key leading to the position included, are unique. -/
def Ctx.wellFormed : Ctx → Bool
  | .hole => true
  | .arr pre c post => (Value.array (pre ++ post)).wellFormed && c.wellFormed
  | .obj pre k c post => (Value.object (pre ++ (k, .null) :: post)).wellFormed && c.wellFormed

/-- One object somewhere inside the value has its entries reordered. -/
def ReorderStep (a a2 : Value) : Prop :=
  ∃ (c : Ctx) (kvs kvs2 : List (String × Value)),
    List.Perm kvs kvs2 ∧ a = c.plug (.object kvs) ∧ a2 = c.plug (.object kvs2)

/-- Any number of objects inside the value have their entries reordered. -/
def Reordering : Value → Value → Prop := Relation.ReflTransGen ReorderStep

/-! ### The recursion of the engine, with the recursive call as a parameter -/

/-- The slice loop of `deepValueEqual`, calling `call` where the code calls
`deepEqual`. -/
def sliceLoopWith (call : Value → Value → Option Bool) :
    List Value → List Value → Option Bool
  | [], _ => some true
  | _ :: _, [] => none
  | x :: xs, y :: ys =>
    match call x y with
    | none => none
    | some false => some false
    | some true => sliceLoopWith call xs ys

/-- The map loop of `deepValueEqual`, calling `call` where the code calls
`deepEqual`. -/
def mapLoopWith (call : Value → Value → Option Bool) (nobj : List (String × Value)) :
    List (String × Value) → Option Bool
  | [] => some true
  | (k, v1) :: rest =>
    match nobj.lookup k with
    | none => some false
    | some v2 =>
      match call v1 v2 with
      | none => none
      | some false => some false
      | some true => mapLoopWith call nobj rest

/-- The body of `deepValueEqual`, calling `call` where the code calls
`deepEqual`. -/
def deepValueEqualWith (call : Value → Value → Option Bool) (src tgt : Value) (kind : Kind) :
    Option Bool :=
  match kind with
  | .String =>
    match src with
    | .number v =>
      match tgt with
      | .number w => some (v == w)
      | _ => none
    | .str s =>
      match tgt with
      | .str t => some (s == t)
      | _ => none
    | _ => none
  | .Bool =>
    match src, tgt with
    | .bool a, .bool b => some (a == b)
    | _, _ => none
  | .Float64 =>
    match src, tgt with
    | .float a, .float b => some (Float64.eq a b)
    | _, _ => none
  | .Slice =>
    match src with
    | .array oarr =>
      match tgt with
      | .array narr =>
        if oarr.length != narr.length then some false
        else sliceLoopWith call oarr narr
      | _ => none
    | _ => none
  | .Map =>
    match src with
    | .object oobj =>
      match tgt with
      | .object nobj =>
        if oobj.length != nobj.length then some false
        else mapLoopWith call nobj oobj
      | _ => none
    | _ => none
  | _ => none

/-- The body of `deepEqual`, calling `call` where the code (through
`deepValueEqual`) calls `deepEqual`. -/
def deepEqualWith (call : Value → Value → Option Bool) (src tgt : Value) : Option Bool :=
  if src.isNil || tgt.isNil then
    some (src.isNil && tgt.isNil)
  else
    let srcKind := typeSwitchKind src
    if srcKind != typeSwitchKind tgt then
      some false
    else
      deepValueEqualWith call src tgt srcKind

/-- The body of `deepEqual` unfolded `n` times over `bot`: recursive calls
nested more than `n` deep are answered by `bot`. -/
def deepEqualFuel (bot : Value → Value → Option Bool) : Nat → Value → Value → Option Bool
  | 0 => bot
  | n + 1 => deepEqualWith (deepEqualFuel bot n)

/-- The value `v` is an element of the array `a` or a value of the object `a`. -/
def Value.child (v a : Value) : Prop :=
  match a with
  | .array xs => v ∈ xs
  | .object kvs => ∃ k, (k, v) ∈ kvs
  | _ => False

mutual

/-- The nesting depth of a value: `0` for a scalar, one more than its deepest
element or value for an array or object. -/
def Value.depth : Value → Nat
  | .array xs => depthList xs + 1
  | .object kvs => depthEntries kvs + 1
  | _ => 0

/-- The largest depth among the elements of an array. -/
def depthList : List Value → Nat
  | [] => 0
  | x :: xs => max x.depth (depthList xs)

/-- The largest depth among the values of an object. -/
def depthEntries : List (String × Value) → Nat
  | [] => 0
  | (_, v) :: rest => max v.depth (depthEntries rest)

end

/-! ### Options of the differ (`option.go`) -/

/-- Modelled from the spec: the struct behind `Differ.opts`, declared outside
`option.go`. Its fields are the ones that `option.go` assigns, one per row of
the option table. The field `ignores` is a `map[string]struct{}`, a set of
JSON Pointer strings, `none` being the nil map; `M` and `U` stand for the
types `marshalFunc` and `unmarshalFunc`. -/
structure Options (M U : Type) where
  factorize : Bool
  rationalize : Bool
  equivalent : Bool
  invertible : Bool
  ignores : Option (Finset String)
  omitEmpty : Bool
  marshal : M
  unmarshal : U

/-- Modelled from the spec: the struct `Differ`, declared outside `option.go`:
its field `opts` and, in `rest`, whatever else it holds (no option of
`option.go` touches it). -/
structure Differ (M U R : Type) where
  opts : Options M U
  rest : R

/-- The Go type `Option` of `option.go`, `func(*Differ)`: the differ after the
call, as a function of the differ before it. -/
abbrev DifferOption (M U R : Type) : Type := Differ M U R → Differ M U R

/-- The option `Factorize` of `option.go`. -/
def Factorize {M U R : Type} : DifferOption M U R :=
  fun o => { o with opts := { o.opts with factorize := true } }

/-- The option `Rationalize` of `option.go`. -/
def Rationalize {M U R : Type} : DifferOption M U R :=
  fun o => { o with opts := { o.opts with rationalize := true } }

/-- The option `Equivalent` of `option.go`. -/
def Equivalent {M U R : Type} : DifferOption M U R :=
  fun o => { o with opts := { o.opts with equivalent := true } }

/-- The option `Invertible` of `option.go`. -/
def Invertible {M U R : Type} : DifferOption M U R :=
  fun o => { o with opts := { o.opts with invertible := true } }

/-- The option `Ignores` of `option.go`: a fresh map, then one insertion per
pointer, in the order of `ptrs`. -/
def Ignores {M U R : Type} (ptrs : List String) : DifferOption M U R :=
  fun o => { o with opts := { o.opts with
    ignores := some (ptrs.foldl (fun m ptr => insert ptr m) ∅) } }

/-- The option `OmitEmpty` of `option.go`. -/
def OmitEmpty {M U R : Type} : DifferOption M U R :=
  fun o => { o with opts := { o.opts with omitEmpty := true } }

/-- The option `MarshalFunc` of `option.go`. -/
def MarshalFunc {M U R : Type} (fn : M) : DifferOption M U R :=
  fun o => { o with opts := { o.opts with marshal := fn } }

/-- The option `UnmarshalFunc` of `option.go`. -/
def UnmarshalFunc {M U R : Type} (fn : U) : DifferOption M U R :=
  fun o => { o with opts := { o.opts with unmarshal := fn } }

/-- The ignore set of a differ: the keys of `opts.ignores` (none for the nil
map). -/
def Differ.ignoreSet {M U R : Type} (d : Differ M U R) : Finset String :=
  d.opts.ignores.getD ∅

/-- A call of one of the eight option constructors of `option.go`, with its
arguments. -/
inductive OptionCall (M U : Type)
  | factorize
  | rationalize
  | equivalent
  | invertible
  | ignores (ptrs : List String)
  | omitEmpty
  | marshalFunc (fn : M)
  | unmarshalFunc (fn : U)

/-- The option that the call returns. -/
def OptionCall.option {M U R : Type} : OptionCall M U → DifferOption M U R
  | .factorize => Factorize
  | .rationalize => Rationalize
  | .equivalent => Equivalent
  | .invertible => Invertible
  | .ignores ptrs => Ignores ptrs
  | .omitEmpty => OmitEmpty
  | .marshalFunc fn => MarshalFunc fn
  | .unmarshalFunc fn => UnmarshalFunc fn

/-- Two calls assign different values to the same field: two `Ignores` with
different sets of pointers, two `MarshalFunc` or two `UnmarshalFunc` with
different functions. -/
def OptionCall.conflict {M U : Type} : OptionCall M U → OptionCall M U → Prop
  | .ignores p1, .ignores p2 => ¬ ∀ p : String, p ∈ p1 ↔ p ∈ p2
  | .marshalFunc f1, .marshalFunc f2 => f1 ≠ f2
  | .unmarshalFunc f1, .unmarshalFunc f2 => f1 ≠ f2
  | _, _ => False

/-! ### Induction over values -/

/-- Induction over a value and its sub-values. -/
theorem Value.induct {P : Value → Prop}
    (hnull : P .null) (hbool : ∀ b, P (.bool b)) (hfloat : ∀ f, P (.float f))
    (hstr : ∀ s, P (.str s)) (hnumber : ∀ s, P (.number s)) (hother : ∀ t, P (.other t))
    (harray : ∀ xs : List Value, (∀ x ∈ xs, P x) → P (.array xs))
    (hobject : ∀ kvs : List (String × Value), (∀ p ∈ kvs, P p.2) → P (.object kvs)) :
    ∀ v, P v
  | .null => hnull
  | .bool b => hbool b
  | .float f => hfloat f
  | .str s => hstr s
  | .number s => hnumber s
  | .other t => hother t
  | .array xs => harray xs (fun x hx =>
      have : sizeOf x < 1 + sizeOf xs := by
        have := List.sizeOf_lt_of_mem hx
        omega
      Value.induct hnull hbool hfloat hstr hnumber hother harray hobject x)
  | .object kvs => hobject kvs (fun p hp =>
      have : sizeOf p.2 < 1 + sizeOf kvs := by
        have h1 := List.sizeOf_lt_of_mem hp
        have h2 : sizeOf p = 1 + sizeOf p.1 + sizeOf p.2 := by cases p; rfl
        omega
      Value.induct hnull hbool hfloat hstr hnumber hother harray hobject p.2)
termination_by v => sizeOf v

/-! ### Unfolding the engine -/

theorem Float64.eq_self (f : Float64) (h : f.isNaN = false) : Float64.eq f f = true := by
  simp [Float64.eq, h]

theorem Float64.eq_comm (a b : Float64) : Float64.eq a b = Float64.eq b a := by
  simp only [Float64.eq]
  rw [Bool.and_comm (!a.isNaN), Bool.and_comm a.isZero,
    Bool.beq_comm (a := a.bits % 2 ^ 64)]

theorem sliceLoop_nil (ys : List Value) : sliceLoop [] ys = some true := by
  simp [sliceLoop]

theorem sliceLoop_cons_nil (x : Value) (xs : List Value) : sliceLoop (x :: xs) [] = none := by
  simp [sliceLoop]

theorem sliceLoop_cons (x y : Value) (xs ys : List Value) :
    sliceLoop (x :: xs) (y :: ys) =
      match deepEqual x y with
      | none => none
      | some false => some false
      | some true => sliceLoop xs ys := by
  rw [sliceLoop]

theorem mapLoop_nil (nobj : List (String × Value)) : mapLoop [] nobj = some true := by
  simp [mapLoop]

theorem mapLoop_cons (k : String) (v1 : Value) (rest nobj : List (String × Value)) :
    mapLoop ((k, v1) :: rest) nobj =
      match nobj.lookup k with
      | none => some false
      | some v2 =>
        match deepEqual v1 v2 with
        | none => none
        | some false => some false
        | some true => mapLoop rest nobj := by
  rw [mapLoop]

theorem deepEqual_array (xs ys : List Value) :
    deepEqual (.array xs) (.array ys) =
      if xs.length != ys.length then some false else sliceLoop xs ys := by
  simp [deepEqual, deepValueEqual, typeSwitchKind, Value.isNil]

theorem deepEqual_object (a b : List (String × Value)) :
    deepEqual (.object a) (.object b) =
      if a.length != b.length then some false else mapLoop a b := by
  simp [deepEqual, deepValueEqual, typeSwitchKind, Value.isNil]

/-- The slice loop returns true exactly when every visited pair compares
true (the lists having the same length). -/
theorem sliceLoop_eq_true_iff (xs ys : List Value) (hlen : xs.length = ys.length) :
    sliceLoop xs ys = some true ↔
      List.Forall₂ (fun x y => deepEqual x y = some true) xs ys := by
  induction xs generalizing ys with
  | nil =>
    cases ys with
    | nil => simp [sliceLoop_nil]
    | cons y ys => simp at hlen
  | cons x xs ih =>
    cases ys with
    | nil => simp at hlen
    | cons y ys =>
      have hl : xs.length = ys.length := by simpa using hlen
      rw [sliceLoop_cons, List.forall₂_cons, ← ih ys hl]
      cases h : deepEqual x y with
      | none => simp
      | some b => cases b <;> simp

/-- The map loop returns true exactly when every key of the source is
found in the target with a value that compares true. -/
theorem mapLoop_eq_true_iff (oobj nobj : List (String × Value)) :
    mapLoop oobj nobj = some true ↔
      ∀ p ∈ oobj, ∃ v2, nobj.lookup p.1 = some v2 ∧ deepEqual p.2 v2 = some true := by
  induction oobj with
  | nil => simp [mapLoop_nil]
  | cons p rest ih =>
    obtain ⟨k, v1⟩ := p
    rw [mapLoop_cons, List.forall_mem_cons, ← ih]
    cases hl : nobj.lookup k with
    | none => simp
    | some v2 =>
      cases h : deepEqual v1 v2 with
      | none => simp [h]
      | some b => cases b <;> simp [h]

theorem lookup_eq_some_of_mem {k : String} {v : Value} {kvs : List (String × Value)}
    (nd : (kvs.map Prod.fst).Nodup) (h : (k, v) ∈ kvs) : kvs.lookup k = some v := by
  induction kvs with
  | nil => simp at h
  | cons p rest ih =>
    obtain ⟨k', v'⟩ := p
    rw [List.map_cons, List.nodup_cons] at nd
    rcases List.mem_cons.1 h with heq | hmem
    · cases heq
      simp [List.lookup]
    · have hne : k ≠ k' := by
        rintro rfl
        exact nd.1 (List.mem_map.2 ⟨(k, v), hmem, rfl⟩)
      have hb : (k == k') = false := by simpa using hne
      rw [List.lookup, hb]
      exact ih nd.2 hmem

theorem mem_of_lookup_eq_some {k : String} {v : Value} {kvs : List (String × Value)}
    (h : kvs.lookup k = some v) : (k, v) ∈ kvs := by
  induction kvs with
  | nil => simp at h
  | cons p rest ih =>
    obtain ⟨k', v'⟩ := p
    by_cases hk : k = k'
    · subst hk
      simp [List.lookup] at h
      simp [h]
    · have hb : (k == k') = false := by simpa using hk
      rw [List.lookup, hb] at h
      exact List.mem_cons_of_mem _ (ih h)

theorem closedList_iff (xs : List Value) :
    closedList xs = true ↔ ∀ x ∈ xs, x.closed = true := by
  induction xs with
  | nil => simp [closedList]
  | cons x xs ih => simp [closedList, ih]

theorem closedEntries_iff (kvs : List (String × Value)) :
    closedEntries kvs = true ↔ ∀ p ∈ kvs, p.2.closed = true := by
  induction kvs with
  | nil => simp [closedEntries]
  | cons p rest ih =>
    obtain ⟨k, v⟩ := p
    simp only [closedEntries, Bool.and_eq_true, ih, List.forall_mem_cons]

theorem uniqueKeysList_iff (xs : List Value) :
    uniqueKeysList xs = true ↔ ∀ x ∈ xs, x.uniqueKeys = true := by
  induction xs with
  | nil => simp [uniqueKeysList]
  | cons x xs ih => simp [uniqueKeysList, ih]

theorem uniqueKeysEntries_iff (kvs : List (String × Value)) :
    uniqueKeysEntries kvs = true ↔ ∀ p ∈ kvs, p.2.uniqueKeys = true := by
  induction kvs with
  | nil => simp [uniqueKeysEntries]
  | cons p rest ih =>
    obtain ⟨k, v⟩ := p
    simp only [uniqueKeysEntries, Bool.and_eq_true, ih, List.forall_mem_cons]

theorem uniqueKeys_array (xs : List Value) :
    (Value.array xs).uniqueKeys = true ↔ ∀ x ∈ xs, x.uniqueKeys = true := by
  rw [Value.uniqueKeys, uniqueKeysList_iff]

theorem uniqueKeys_object (kvs : List (String × Value)) :
    (Value.object kvs).uniqueKeys = true ↔
      (kvs.map Prod.fst).Nodup ∧ ∀ p ∈ kvs, p.2.uniqueKeys = true := by
  rw [Value.uniqueKeys, Bool.and_eq_true, uniqueKeysEntries_iff, decide_eq_true_iff]

theorem wellFormed_array (xs : List Value) :
    (Value.array xs).wellFormed = true ↔ ∀ x ∈ xs, x.wellFormed = true := by
  simp only [Value.wellFormed, Bool.and_eq_true, uniqueKeys_array]
  rw [Value.closed, closedList_iff]
  exact ⟨fun h x hx => ⟨h.1 x hx, h.2 x hx⟩, fun h => ⟨fun x hx => (h x hx).1, fun x hx => (h x hx).2⟩⟩

theorem wellFormed_object (kvs : List (String × Value)) :
    (Value.object kvs).wellFormed = true ↔
      (kvs.map Prod.fst).Nodup ∧ ∀ p ∈ kvs, p.2.wellFormed = true := by
  simp only [Value.wellFormed, Bool.and_eq_true, uniqueKeys_object]
  rw [Value.closed, closedEntries_iff]
  exact ⟨fun h => ⟨h.2.1, fun x hx => ⟨h.1 x hx, h.2.2 x hx⟩⟩,
    fun h => ⟨fun x hx => (h.2 x hx).1, h.1, fun x hx => (h.2 x hx).2⟩⟩

theorem forall₂_self {R : Value → Value → Prop} (xs : List Value) (h : ∀ x ∈ xs, R x x) :
    List.Forall₂ R xs xs := by
  induction xs with
  | nil => exact List.Forall₂.nil
  | cons x xs ih =>
    exact List.Forall₂.cons (h x (List.mem_cons_self x xs))
      (ih (fun y hy => h y (List.mem_cons_of_mem x hy)))

theorem deepEqual_array_eq_true_iff (xs ys : List Value) :
    deepEqual (.array xs) (.array ys) = some true ↔
      List.Forall₂ (fun x y => deepEqual x y = some true) xs ys := by
  rw [deepEqual_array]
  by_cases hlen : xs.length = ys.length
  · simp only [hlen, bne_self_eq_false, Bool.false_eq_true, if_false]
    exact sliceLoop_eq_true_iff xs ys hlen
  · have hb : (xs.length != ys.length) = true := by simpa using hlen
    simp only [hb, if_true]
    constructor
    · intro h
      cases h
    · intro h
      exact absurd h.length_eq hlen

theorem deepEqual_object_eq_true_iff (a b : List (String × Value)) :
    deepEqual (.object a) (.object b) = some true ↔
      a.length = b.length ∧
        ∀ p ∈ a, ∃ v2, b.lookup p.1 = some v2 ∧ deepEqual p.2 v2 = some true := by
  rw [deepEqual_object]
  by_cases hlen : a.length = b.length
  · simp only [hlen, bne_self_eq_false, Bool.false_eq_true, if_false, true_and]
    exact mapLoop_eq_true_iff a b
  · have hb : (a.length != b.length) = true := by simpa using hlen
    simp only [hb, if_true]
    constructor
    · intro h
      cases h
    · intro h
      exact absurd h.1 hlen

theorem forall₂_swap_of_mem {R S : Value → Value → Prop} {xs ys : List Value}
    (h : List.Forall₂ R xs ys) (himp : ∀ x ∈ xs, ∀ y ∈ ys, R x y → S y x) :
    List.Forall₂ S ys xs := by
  induction h with
  | nil => exact List.Forall₂.nil
  | @cons x y xs ys hxy _ ih =>
    refine List.Forall₂.cons
      (himp x (List.mem_cons_self x xs) y (List.mem_cons_self y ys) hxy) (ih ?_)
    intro x1 hx1 y1 hy1
    exact himp x1 (List.mem_cons_of_mem x hx1) y1 (List.mem_cons_of_mem y hy1)

/-- Two key-unique entry lists of the same length, the keys of the first all
occurring in the second, have the same keys. -/
theorem keys_subset_of_length_eq {a b : List (String × Value)}
    (nda : (a.map Prod.fst).Nodup) (hlen : a.length = b.length)
    (hsub : ∀ k ∈ a.map Prod.fst, k ∈ b.map Prod.fst) :
    ∀ k ∈ b.map Prod.fst, k ∈ a.map Prod.fst := by
  have hsp : List.Subperm (a.map Prod.fst) (b.map Prod.fst) := List.subperm_of_subset nda hsub
  have hperm : List.Perm (a.map Prod.fst) (b.map Prod.fst) :=
    hsp.perm_of_length_le (by simp [hlen])
  intro k hk
  exact hperm.mem_iff.2 hk

/-- A comparison that returns true also returns true with the arguments
exchanged, objects having unique keys. -/
theorem deepEqual_true_symm (a : Value) :
    ∀ b : Value, a.uniqueKeys = true → b.uniqueKeys = true →
      deepEqual a b = some true → deepEqual b a = some true := by
  induction a using Value.induct with
  | hnull =>
    intro b _ _ h
    cases b <;> simp_all [deepEqual, Value.isNil]
  | hbool x =>
    intro b _ _ h
    cases b <;> simp_all [deepEqual, deepValueEqual, typeSwitchKind, Value.isNil]
  | hfloat f =>
    intro b _ _ h
    cases b with
    | float g =>
      simp only [deepEqual, deepValueEqual, typeSwitchKind, Value.isNil] at h ⊢
      simpa [Float64.eq_comm g f] using h
    | _ => simp_all [deepEqual, deepValueEqual, typeSwitchKind, Value.isNil]
  | hstr s =>
    intro b _ _ h
    cases b <;> simp_all [deepEqual, deepValueEqual, typeSwitchKind, Value.isNil]
  | hnumber s =>
    intro b _ _ h
    cases b <;> simp_all [deepEqual, deepValueEqual, typeSwitchKind, Value.isNil]
  | hother t =>
    intro b _ _ h
    cases b <;> simp_all [deepEqual, deepValueEqual, typeSwitchKind, Value.isNil]
  | harray xs ih =>
    intro b ha hb h
    cases b with
    | array ys =>
      rw [uniqueKeys_array] at ha hb
      rw [deepEqual_array_eq_true_iff] at h ⊢
      exact forall₂_swap_of_mem h (fun x hx y hy hxy => ih x hx y (ha x hx) (hb y hy) hxy)
    | _ => simp [deepEqual, deepValueEqual, typeSwitchKind, Value.isNil] at h
  | hobject ka ih =>
    intro b ha hb h
    cases b with
    | object kb =>
      rw [uniqueKeys_object] at ha hb
      rw [deepEqual_object_eq_true_iff] at h ⊢
      obtain ⟨hlen, hall⟩ := h
      refine ⟨hlen.symm, ?_⟩
      have hsub : ∀ k ∈ ka.map Prod.fst, k ∈ kb.map Prod.fst := by
        intro k hk
        obtain ⟨p, hp, rfl⟩ := List.mem_map.1 hk
        obtain ⟨v2, hv2, _⟩ := hall p hp
        exact List.mem_map.2 ⟨(p.1, v2), mem_of_lookup_eq_some hv2, rfl⟩
      have hback := keys_subset_of_length_eq ha.1 hlen hsub
      intro q hq
      obtain ⟨p, hp, hpk⟩ := List.mem_map.1 (hback q.1 (List.mem_map.2 ⟨q, hq, rfl⟩))
      obtain ⟨v2, hv2, hpe⟩ := hall p hp
      have hq2 : kb.lookup q.1 = some q.2 := lookup_eq_some_of_mem hb.1 hq
      rw [hpk, hq2] at hv2
      cases hv2
      refine ⟨p.2, ?_, ih p hp q.2 (ha.2 p hp) (hb.2 q hq) hpe⟩
      rw [← hpk]
      exact lookup_eq_some_of_mem ha.1 hp
    | _ => simp [deepEqual, deepValueEqual, typeSwitchKind, Value.isNil] at h

/-- A well-formed value compares true with itself. -/
theorem deepEqual_self (v : Value) (h : v.wellFormed = true) : deepEqual v v = some true := by
  induction v using Value.induct with
  | hnull => simp [deepEqual, Value.isNil]
  | hbool b => simp [deepEqual, deepValueEqual, typeSwitchKind, Value.isNil]
  | hfloat f =>
    have hf : f.isNaN = false := by
      simp only [Value.wellFormed, Value.closed, Bool.and_eq_true, Bool.not_eq_true'] at h
      exact h.1
    simp [deepEqual, deepValueEqual, typeSwitchKind, Value.isNil, Float64.eq_self f hf]
  | hstr s => simp [deepEqual, deepValueEqual, typeSwitchKind, Value.isNil]
  | hnumber s => simp [deepEqual, deepValueEqual, typeSwitchKind, Value.isNil]
  | hother t => simp [Value.wellFormed, Value.closed] at h
  | harray xs ih =>
    rw [wellFormed_array] at h
    rw [deepEqual_array]
    simp only [bne_self_eq_false, Bool.false_eq_true, if_false]
    rw [sliceLoop_eq_true_iff xs xs rfl]
    exact forall₂_self xs (fun x hx => ih x hx (h x hx))
  | hobject kvs ih =>
    rw [wellFormed_object] at h
    rw [deepEqual_object]
    simp only [bne_self_eq_false, Bool.false_eq_true, if_false]
    rw [mapLoop_eq_true_iff]
    intro p hp
    exact ⟨p.2, lookup_eq_some_of_mem h.1 hp, ih p hp (h.2 p hp)⟩

/-! ### Properties of the equality engine -/

/-- C1. Reflexivity: a well-formed decoded value (null, booleans, native
numbers other than NaN, strings, numeric tokens, arrays and objects with
unique keys, at any depth) is equal to itself: `deepEqual v v` returns true. -/
theorem deepEqual_refl (v : Value) (h : v.wellFormed = true) : deepEqual v v = some true :=
  deepEqual_self v h

/-- Witness for C1 on the nested object `{"x":[1,{"y":2}],"n":null,"t":"1.50"}`. -/
theorem deepEqual_refl_witness :
    (Value.object [("x", .array [.float ⟨0x3FF0000000000000⟩,
        .object [("y", .float ⟨0x4000000000000000⟩)]]), ("n", .null), ("t", .number "1.50")]).wellFormed
        = true ∧
      deepEqual
        (Value.object [("x", .array [.float ⟨0x3FF0000000000000⟩,
          .object [("y", .float ⟨0x4000000000000000⟩)]]), ("n", .null), ("t", .number "1.50")])
        (Value.object [("x", .array [.float ⟨0x3FF0000000000000⟩,
          .object [("y", .float ⟨0x4000000000000000⟩)]]), ("n", .null), ("t", .number "1.50")])
        = some true :=
  ⟨by decide, deepEqual_refl _ (by decide)⟩

/-- C2 (as stated) fails: with `a = {"b": u, "c": 1}` and `b = {"a": 1, "b": u}`,
`u` a value of an unsupported type, `deepEqual a b` visits key `b` first and
panics on `u`, while `deepEqual b a` visits key `a` first, does not find it
and returns false. -/
theorem deepEqual_symm_counterexample :
    (Value.object [("b", .other 0), ("c", .float ⟨0x3FF0000000000000⟩)]).uniqueKeys = true ∧
    (Value.object [("a", .float ⟨0x3FF0000000000000⟩), ("b", .other 0)]).uniqueKeys = true ∧
    deepEqual (Value.object [("b", .other 0), ("c", .float ⟨0x3FF0000000000000⟩)])
        (Value.object [("a", .float ⟨0x3FF0000000000000⟩), ("b", .other 0)]) = none ∧
    deepEqual (Value.object [("a", .float ⟨0x3FF0000000000000⟩), ("b", .other 0)])
        (Value.object [("b", .other 0), ("c", .float ⟨0x3FF0000000000000⟩)]) = some false ∧
    deepEqual (Value.object [("b", .other 0), ("c", .float ⟨0x3FF0000000000000⟩)])
        (Value.object [("a", .float ⟨0x3FF0000000000000⟩), ("b", .other 0)]) ≠
      deepEqual (Value.object [("a", .float ⟨0x3FF0000000000000⟩), ("b", .other 0)])
        (Value.object [("b", .other 0), ("c", .float ⟨0x3FF0000000000000⟩)]) := by
  have h1 : deepEqual (Value.object [("b", .other 0), ("c", .float ⟨0x3FF0000000000000⟩)])
      (Value.object [("a", .float ⟨0x3FF0000000000000⟩), ("b", .other 0)]) = none := by
    simp [deepEqual, deepValueEqual, mapLoop, typeSwitchKind, Value.isNil, List.lookup]
  have h2 : deepEqual (Value.object [("a", .float ⟨0x3FF0000000000000⟩), ("b", .other 0)])
      (Value.object [("b", .other 0), ("c", .float ⟨0x3FF0000000000000⟩)]) = some false := by
    simp [deepEqual, deepValueEqual, mapLoop, typeSwitchKind, Value.isNil, List.lookup]
  refine ⟨by decide, by decide, h1, h2, ?_⟩
  rw [h1, h2]
  exact fun h => Option.noConfusion h

/-- C2 (amended). Symmetry of the true outcome: for all values `a` and `b`
whose objects have unique keys, `deepEqual a b` returns true exactly when
`deepEqual b a` returns true; hence whenever both calls return a boolean,
they return the same boolean. -/
theorem deepEqual_symm (a b : Value) (ha : a.uniqueKeys = true) (hb : b.uniqueKeys = true) :
    (deepEqual a b = some true ↔ deepEqual b a = some true) ∧
      ∀ x y : Bool, deepEqual a b = some x → deepEqual b a = some y → x = y := by
  have hiff : deepEqual a b = some true ↔ deepEqual b a = some true :=
    ⟨deepEqual_true_symm a b ha hb, deepEqual_true_symm b a hb ha⟩
  refine ⟨hiff, ?_⟩
  intro x y hx hy
  cases x <;> cases y
  · rfl
  · rw [hiff.2 hy] at hx
    cases hx
  · rw [hiff.1 hx] at hy
    cases hy
  · rfl

/-- Witness for C2 (amended) on `{"a":1,"b":2}` and `{"b":2,"a":1}`. -/
theorem deepEqual_symm_witness :
    (Value.object [("a", .float ⟨0x3FF0000000000000⟩), ("b", .float ⟨0x4000000000000000⟩)]).uniqueKeys
        = true ∧
    (Value.object [("b", .float ⟨0x4000000000000000⟩), ("a", .float ⟨0x3FF0000000000000⟩)]).uniqueKeys
        = true ∧
    ((deepEqual
        (Value.object [("a", .float ⟨0x3FF0000000000000⟩), ("b", .float ⟨0x4000000000000000⟩)])
        (Value.object [("b", .float ⟨0x4000000000000000⟩), ("a", .float ⟨0x3FF0000000000000⟩)])
          = some true ↔
      deepEqual
        (Value.object [("b", .float ⟨0x4000000000000000⟩), ("a", .float ⟨0x3FF0000000000000⟩)])
        (Value.object [("a", .float ⟨0x3FF0000000000000⟩), ("b", .float ⟨0x4000000000000000⟩)])
          = some true) ∧
      ∀ x y : Bool,
        deepEqual
          (Value.object [("a", .float ⟨0x3FF0000000000000⟩), ("b", .float ⟨0x4000000000000000⟩)])
          (Value.object [("b", .float ⟨0x4000000000000000⟩), ("a", .float ⟨0x3FF0000000000000⟩)])
            = some x →
        deepEqual
          (Value.object [("b", .float ⟨0x4000000000000000⟩), ("a", .float ⟨0x3FF0000000000000⟩)])
          (Value.object [("a", .float ⟨0x3FF0000000000000⟩), ("b", .float ⟨0x4000000000000000⟩)])
            = some y → x = y) :=
  ⟨by decide, by decide, deepEqual_symm _ _ (by decide) (by decide)⟩

theorem isNil_iff (a : Value) : a.isNil = true ↔ a = .null := by
  cases a <;> simp [Value.isNil]

theorem deepEqual_of_isNil (a b : Value) (h : a.isNil = true ∨ b.isNil = true) :
    deepEqual a b = some (a.isNil && b.isNil) := by
  rw [deepEqual]
  have : (a.isNil || b.isNil) = true := by simpa using h
  simp [this]

/-- C3. Null rule: when `a` is null or `b` is null, `deepEqual a b` returns a
boolean, and it returns true exactly when both `a` and `b` are null. -/
theorem deepEqual_null_rule (a b : Value) (h : a = .null ∨ b = .null) :
    (deepEqual a b = some true ↔ (a = .null ∧ b = .null)) ∧
      (deepEqual a b = some false ↔ ¬ (a = .null ∧ b = .null)) := by
  have hnil : a.isNil = true ∨ b.isNil = true := by
    simpa only [isNil_iff] using h
  rw [deepEqual_of_isNil a b hnil, ← isNil_iff a, ← isNil_iff b]
  cases a.isNil <;> cases b.isNil <;> simp

/-- Witness for C3: null is not equal to `false`, `0`, `""`, `[]` or `{}`,
on either side, and null is equal to null. -/
theorem deepEqual_null_rule_witness :
    deepEqual .null (.bool false) = some false ∧
    deepEqual .null (.float ⟨0⟩) = some false ∧
    deepEqual .null (.str "") = some false ∧
    deepEqual .null (.array []) = some false ∧
    deepEqual .null (.object []) = some false ∧
    deepEqual (.object []) .null = some false ∧
    deepEqual .null .null = some true :=
  ⟨(deepEqual_null_rule .null (.bool false) (Or.inl rfl)).2.2 (fun h => Value.noConfusion h.2),
   (deepEqual_null_rule .null (.float ⟨0⟩) (Or.inl rfl)).2.2 (fun h => Value.noConfusion h.2),
   (deepEqual_null_rule .null (.str "") (Or.inl rfl)).2.2 (fun h => Value.noConfusion h.2),
   (deepEqual_null_rule .null (.array []) (Or.inl rfl)).2.2 (fun h => Value.noConfusion h.2),
   (deepEqual_null_rule .null (.object []) (Or.inl rfl)).2.2 (fun h => Value.noConfusion h.2),
   (deepEqual_null_rule (.object []) .null (Or.inr rfl)).2.2 (fun h => Value.noConfusion h.1),
   (deepEqual_null_rule .null .null (Or.inl rfl)).1.2 ⟨rfl, rfl⟩⟩

/-- C4. Kind-strictness: when `typeSwitchKind` gives different kinds for `a`
and `b`, `deepEqual a b` returns false (a boolean, not a panic). -/
theorem deepEqual_kind_strict (a b : Value) (h : typeSwitchKind a ≠ typeSwitchKind b) :
    deepEqual a b = some false := by
  rw [deepEqual]
  cases a <;> cases b <;> simp [typeSwitchKind, Value.isNil] at h ⊢

/-- Witness for C4: a boolean never equals a string, a native number never
equals a string, the empty array never equals the empty object. -/
theorem deepEqual_kind_strict_witness :
    deepEqual (.bool true) (.str "true") = some false ∧
    deepEqual (.float ⟨0x3FF0000000000000⟩) (.str "1") = some false ∧
    deepEqual (.array []) (.object []) = some false ∧
    deepEqual (.object []) (.array []) = some false ∧
    deepEqual .null (.array []) = some false ∧
    deepEqual .null (.object []) = some false :=
  ⟨deepEqual_kind_strict _ _ (by decide), deepEqual_kind_strict _ _ (by decide),
   deepEqual_kind_strict _ _ (by decide), deepEqual_kind_strict _ _ (by decide),
   deepEqual_kind_strict _ _ (by decide), deepEqual_kind_strict _ _ (by decide)⟩

/-- C5. Array equality is positional: `deepEqual` on two arrays returns true
exactly when they have the same length and the elements at every index
compare true (for arrays of any values, well-formed ones included); so
`[1,2]` equals `[1,2]` and does not equal `[2,1]`. -/
theorem deepEqual_array_positional :
    (∀ xs ys : List Value,
      deepEqual (.array xs) (.array ys) = some true ↔
        xs.length = ys.length ∧
          ∀ (i : Nat) (h1 : i < xs.length) (h2 : i < ys.length),
            deepEqual (xs.get ⟨i, h1⟩) (ys.get ⟨i, h2⟩) = some true) ∧
    deepEqual (.array [.float ⟨0x3FF0000000000000⟩, .float ⟨0x4000000000000000⟩])
        (.array [.float ⟨0x3FF0000000000000⟩, .float ⟨0x4000000000000000⟩]) = some true ∧
    deepEqual (.array [.float ⟨0x3FF0000000000000⟩, .float ⟨0x4000000000000000⟩])
        (.array [.float ⟨0x4000000000000000⟩, .float ⟨0x3FF0000000000000⟩]) = some false := by
  refine ⟨fun xs ys => ?_, ?_, ?_⟩
  · rw [deepEqual_array_eq_true_iff, List.forall₂_iff_get]
  · simp [deepEqual, deepValueEqual, sliceLoop, typeSwitchKind, Value.isNil, Float64.eq,
      Float64.isNaN, Float64.isZero, Float64.exponent, Float64.fraction]
  · simp [deepEqual, deepValueEqual, sliceLoop, typeSwitchKind, Value.isNil, Float64.eq,
      Float64.isNaN, Float64.isZero, Float64.exponent, Float64.fraction]

theorem lookup_eq_some_iff_mem {k : String} {v : Value} {kvs : List (String × Value)}
    (nd : (kvs.map Prod.fst).Nodup) : kvs.lookup k = some v ↔ (k, v) ∈ kvs :=
  ⟨mem_of_lookup_eq_some, lookup_eq_some_of_mem nd⟩

/-- C6. Object equality: for objects `a` and `b` with unique keys,
`deepEqual` returns true exactly when `a` and `b` have the same number of
keys and every key `k` of `a` is present in `b` with `deepEqual a[k] b[k]`
true; objects with different key counts compare false. -/
theorem deepEqual_object_iff (a b : List (String × Value))
    (ha : (Value.object a).uniqueKeys = true) (_hb : (Value.object b).uniqueKeys = true) :
    (deepEqual (.object a) (.object b) = some true ↔
      a.length = b.length ∧
        ∀ (k : String) (v1 : Value), a.lookup k = some v1 →
          ∃ v2, b.lookup k = some v2 ∧ deepEqual v1 v2 = some true) ∧
    (a.length ≠ b.length → deepEqual (.object a) (.object b) = some false) := by
  rw [uniqueKeys_object] at ha
  constructor
  · rw [deepEqual_object_eq_true_iff]
    constructor
    · rintro ⟨hlen, hall⟩
      refine ⟨hlen, fun k v1 hk => ?_⟩
      exact hall (k, v1) (mem_of_lookup_eq_some hk)
    · rintro ⟨hlen, hall⟩
      refine ⟨hlen, fun p hp => ?_⟩
      exact hall p.1 p.2 (lookup_eq_some_of_mem ha.1 hp)
  · intro hne
    have hbne : (a.length != b.length) = true := by simpa using hne
    rw [deepEqual_object, hbne, if_pos rfl]

/-- Witness for C6: `{"a":1}` and `{"a":1,"b":2}` have different key counts
and compare false. -/
theorem deepEqual_object_iff_witness :
    (Value.object [("a", .float ⟨0x3FF0000000000000⟩)]).uniqueKeys = true ∧
    (Value.object [("a", .float ⟨0x3FF0000000000000⟩),
      ("b", .float ⟨0x4000000000000000⟩)]).uniqueKeys = true ∧
    deepEqual (.object [("a", .float ⟨0x3FF0000000000000⟩)])
      (.object [("a", .float ⟨0x3FF0000000000000⟩), ("b", .float ⟨0x4000000000000000⟩)])
        = some false :=
  ⟨by decide, by decide,
    (deepEqual_object_iff [("a", .float ⟨0x3FF0000000000000⟩)]
      [("a", .float ⟨0x3FF0000000000000⟩), ("b", .float ⟨0x4000000000000000⟩)]
      (by decide) (by decide)).2 (by decide)⟩

/-- C7. Reverse containment is implied: for objects `a` and `b` with unique
keys, when `deepEqual a b` returns true, every key `k` of `b` is a key of `a`
and `deepEqual b[k] a[k]` returns true. -/
theorem deepEqual_object_reverse (a b : List (String × Value))
    (ha : (Value.object a).uniqueKeys = true) (hb : (Value.object b).uniqueKeys = true)
    (h : deepEqual (.object a) (.object b) = some true) :
    ∀ (k : String) (v2 : Value), b.lookup k = some v2 →
      ∃ v1, a.lookup k = some v1 ∧ deepEqual v2 v1 = some true := by
  have hrev := deepEqual_true_symm (.object a) (.object b) ha hb h
  rw [deepEqual_object_eq_true_iff] at hrev
  intro k v2 hk
  exact hrev.2 (k, v2) (mem_of_lookup_eq_some hk)

/-- Witness for C7 on `{"a":1,"b":2}` and `{"b":2,"a":1}`. -/
theorem deepEqual_object_reverse_witness :
    (Value.object [("a", .float ⟨0x3FF0000000000000⟩),
      ("b", .float ⟨0x4000000000000000⟩)]).uniqueKeys = true ∧
    (Value.object [("b", .float ⟨0x4000000000000000⟩),
      ("a", .float ⟨0x3FF0000000000000⟩)]).uniqueKeys = true ∧
    deepEqual (.object [("a", .float ⟨0x3FF0000000000000⟩), ("b", .float ⟨0x4000000000000000⟩)])
      (.object [("b", .float ⟨0x4000000000000000⟩), ("a", .float ⟨0x3FF0000000000000⟩)])
        = some true ∧
    ∀ (k : String) (v2 : Value),
      List.lookup k [("b", Value.float ⟨0x4000000000000000⟩),
          ("a", Value.float ⟨0x3FF0000000000000⟩)] = some v2 →
        ∃ v1, List.lookup k [("a", Value.float ⟨0x3FF0000000000000⟩),
            ("b", Value.float ⟨0x4000000000000000⟩)] = some v1 ∧
          deepEqual v2 v1 = some true := by
  have h : deepEqual
      (.object [("a", .float ⟨0x3FF0000000000000⟩), ("b", .float ⟨0x4000000000000000⟩)])
      (.object [("b", .float ⟨0x4000000000000000⟩), ("a", .float ⟨0x3FF0000000000000⟩)])
        = some true := by
    simp [deepEqual, deepValueEqual, mapLoop, typeSwitchKind, Value.isNil, List.lookup,
      Float64.eq, Float64.isNaN, Float64.isZero, Float64.exponent, Float64.fraction]
  exact ⟨by decide, by decide, h, deepEqual_object_reverse _ _ (by decide) (by decide) h⟩

/-- C8. Object order-insensitivity: an object with unique keys and
well-formed values compares true with every reordering of its entries. -/
theorem deepEqual_object_perm (o o2 : List (String × Value))
    (hwf : (Value.object o).wellFormed = true) (hperm : List.Perm o o2) :
    deepEqual (.object o) (.object o2) = some true := by
  rw [wellFormed_object] at hwf
  have nd2 : (o2.map Prod.fst).Nodup := (hperm.map Prod.fst).nodup_iff.1 hwf.1
  rw [deepEqual_object_eq_true_iff]
  refine ⟨hperm.length_eq, fun p hp => ?_⟩
  exact ⟨p.2, lookup_eq_some_of_mem nd2 (hperm.mem_iff.1 hp), deepEqual_self p.2 (hwf.2 p hp)⟩

/-- Witness for C8: `{"a":1,"b":2}` equals `{"b":2,"a":1}`. -/
theorem deepEqual_object_perm_witness :
    (Value.object [("a", .float ⟨0x3FF0000000000000⟩),
      ("b", .float ⟨0x4000000000000000⟩)]).wellFormed = true ∧
    List.Perm [("a", Value.float ⟨0x3FF0000000000000⟩), ("b", Value.float ⟨0x4000000000000000⟩)]
      [("b", Value.float ⟨0x4000000000000000⟩), ("a", Value.float ⟨0x3FF0000000000000⟩)] ∧
    deepEqual (.object [("a", .float ⟨0x3FF0000000000000⟩), ("b", .float ⟨0x4000000000000000⟩)])
      (.object [("b", .float ⟨0x4000000000000000⟩), ("a", .float ⟨0x3FF0000000000000⟩)])
        = some true :=
  ⟨by decide, List.Perm.swap _ _ _,
    deepEqual_object_perm _ _ (by decide) (List.Perm.swap _ _ _)⟩

/-- C9. Numeric-token equality is exact string equality of the token: on two
`json.Number` tokens `deepEqual` returns whether they are the same string,
so it returns true exactly when they are; the token `1.50` is not equal to
the token `1.5`. -/
theorem deepEqual_number_token :
    (∀ s t : String, deepEqual (.number s) (.number t) = some (s == t)) ∧
    (∀ s t : String, deepEqual (.number s) (.number t) = some true ↔ s = t) ∧
    deepEqual (.number "1.50") (.number "1.5") = some false := by
  have h : ∀ s t : String, deepEqual (.number s) (.number t) = some (s == t) := by
    intro s t
    simp [deepEqual, deepValueEqual, typeSwitchKind, Value.isNil]
  refine ⟨h, fun s t => ?_, ?_⟩
  · rw [h]
    simp
  · rw [h]
    decide

/-- C10 fails on the code: a plain string and a numeric token are both built
from the closed union and have the same kind `reflect.String`, yet comparing
them panics in either order (the unchecked assertions `tgt.(string)` and
`tgt.(json.Number)`), also when they are nested in arrays or objects. -/
theorem deepEqual_string_token_panics :
    (Value.str "1").wellFormed = true ∧ (Value.number "1").wellFormed = true ∧
    areComparable (.str "1") (.number "1") = true ∧
    deepEqual (.str "1") (.number "1") = none ∧
    deepEqual (.number "1") (.str "1") = none ∧
    deepEqual (.array [.str "1"]) (.array [.number "1"]) = none ∧
    deepEqual (.object [("a", .number "1")]) (.object [("a", .str "1")]) = none := by
  refine ⟨by decide, by decide, by decide, ?_, ?_, ?_, ?_⟩ <;>
    simp [deepEqual, deepValueEqual, sliceLoop, mapLoop, typeSwitchKind, Value.isNil, List.lookup]

/-- C11 (as stated) fails: a value of an unsupported type compared with a
string has a different kind, so `deepEqual` returns false in both orders
instead of panicking; the same holds against null. -/
theorem deepEqual_unsupported_counterexample :
    typeSwitchKind (.other 0) = Kind.Invalid ∧
    deepEqual (.other 0) (.str "a") = some false ∧
    deepEqual (.str "a") (.other 0) = some false ∧
    deepEqual (.other 0) .null = some false ∧
    deepEqual .null (.other 0) = some false := by
  refine ⟨rfl, ?_, ?_, ?_, ?_⟩ <;>
    simp [deepEqual, deepValueEqual, typeSwitchKind, Value.isNil]

/-- C11 (amended). For a value `u` that `typeSwitchKind` classifies as
`reflect.Invalid` and any value `b`: `deepEqual u b` and `deepEqual b u` panic
exactly when `b` is classified as `reflect.Invalid` too, and return false for
every `b` of another kind. -/
theorem deepEqual_unsupported (u b : Value) (hu : typeSwitchKind u = Kind.Invalid) :
    (deepEqual u b = none ↔ typeSwitchKind b = Kind.Invalid) ∧
    (deepEqual b u = none ↔ typeSwitchKind b = Kind.Invalid) ∧
    (typeSwitchKind b ≠ Kind.Invalid →
      deepEqual u b = some false ∧ deepEqual b u = some false) := by
  cases u <;> simp [typeSwitchKind] at hu
  cases b <;> simp [deepEqual, deepValueEqual, typeSwitchKind, Value.isNil]

/-- Witness for C11 (amended): two unsupported values panic, an unsupported
value against a boolean gives false. -/
theorem deepEqual_unsupported_witness :
    typeSwitchKind (.other 0) = Kind.Invalid ∧
    deepEqual (.other 0) (.other 1) = none ∧
    deepEqual (.other 0) (.bool true) = some false ∧
    deepEqual (.bool true) (.other 0) = some false :=
  ⟨rfl, (deepEqual_unsupported (.other 0) (.other 1) rfl).1.2 rfl,
    ((deepEqual_unsupported (.other 0) (.bool true) rfl).2.2 (by decide)).1,
    ((deepEqual_unsupported (.other 0) (.bool true) rfl).2.2 (by decide)).2⟩

/-- C12 fails on the code at `(nil, nil)`: `typeSwitchKind` gives `reflect.Ptr`
for nil, so `areComparable nil nil` is true, against the comment of
`areComparable` (comparable only if both are non-nil). On every other pair
the claim holds: `areComparable a b` is true exactly when both are non-nil and
share the same kind. -/
theorem areComparable_nil_nil :
    typeSwitchKind .null = Kind.Ptr ∧
    areComparable .null .null = true ∧
    ∀ a b : Value, ¬ (a = .null ∧ b = .null) →
      (areComparable a b = true ↔
        a ≠ .null ∧ b ≠ .null ∧ typeSwitchKind a = typeSwitchKind b) := by
  refine ⟨rfl, by decide, fun a b h => ?_⟩
  cases a <;> cases b <;> simp [areComparable, typeSwitchKind] at h ⊢

/-- C13. The classifier `typeSwitchKind` is a total function into seven
kinds: a plain string and a numeric token give `String`, a boolean `Bool`, a
native float `Float64`, null `Ptr`, an array `Slice`, an object `Map`; these
six kinds and `Invalid` are pairwise distinct; and the result is `Invalid`
exactly for a value of none of the seven shapes. -/
theorem typeSwitchKind_spec :
    (∀ s, typeSwitchKind (.str s) = Kind.String) ∧
    (∀ s, typeSwitchKind (.number s) = Kind.String) ∧
    (∀ b, typeSwitchKind (.bool b) = Kind.Bool) ∧
    (∀ f, typeSwitchKind (.float f) = Kind.Float64) ∧
    typeSwitchKind .null = Kind.Ptr ∧
    (∀ xs, typeSwitchKind (.array xs) = Kind.Slice) ∧
    (∀ kvs, typeSwitchKind (.object kvs) = Kind.Map) ∧
    (∀ v, typeSwitchKind v ∈
      [Kind.String, Kind.Bool, Kind.Float64, Kind.Ptr, Kind.Slice, Kind.Map, Kind.Invalid]) ∧
    [Kind.String, Kind.Bool, Kind.Float64, Kind.Ptr, Kind.Slice, Kind.Map, Kind.Invalid].Nodup ∧
    (∀ v, typeSwitchKind v = Kind.Invalid ↔
      (∀ s, v ≠ .str s) ∧ (∀ s, v ≠ .number s) ∧ (∀ b, v ≠ .bool b) ∧ (∀ f, v ≠ .float f) ∧
        v ≠ .null ∧ (∀ xs, v ≠ .array xs) ∧ (∀ kvs, v ≠ .object kvs)) ∧
    (∀ v, typeSwitchKind v = Kind.Invalid ↔ ∃ t, v = .other t) := by
  refine ⟨fun _ => rfl, fun _ => rfl, fun _ => rfl, fun _ => rfl, rfl, fun _ => rfl,
    fun _ => rfl, fun v => ?_, by decide, fun v => ?_, fun v => ?_⟩
  · cases v <;> simp [typeSwitchKind]
  · cases v <;> simp [typeSwitchKind]
  · cases v <;> simp [typeSwitchKind]

/-- C16 (as stated) fails: the native float `1` and the numeric token `1`
have different kinds and compare false in both orders. -/
theorem deepEqual_float_token_counterexample :
    deepEqual (.float ⟨0x3FF0000000000000⟩) (.number "1") = some false ∧
    deepEqual (.number "1") (.float ⟨0x3FF0000000000000⟩) = some false := by
  constructor <;> simp [deepEqual, deepValueEqual, typeSwitchKind, Value.isNil]

/-- C16 (amended). Numbers are compared within one representation only: a
native float and a numeric token have different kinds (`reflect.Float64` and
`reflect.String`), so `deepEqual` returns false on them in both orders,
whatever number they denote. -/
theorem deepEqual_float_token :
    ∀ (f : Float64) (t : String),
      typeSwitchKind (.float f) ≠ typeSwitchKind (.number t) ∧
      deepEqual (.float f) (.number t) = some false ∧
      deepEqual (.number t) (.float f) = some false := by
  intro f t
  refine ⟨by simp [typeSwitchKind], ?_, ?_⟩ <;>
    simp [deepEqual, deepValueEqual, typeSwitchKind, Value.isNil]

theorem sliceLoop_append_same (pre l1 l2 : List Value)
    (h : ∀ x ∈ pre, deepEqual x x = some true) :
    sliceLoop (pre ++ l1) (pre ++ l2) = sliceLoop l1 l2 := by
  induction pre with
  | nil => rfl
  | cons x pre ih =>
    rw [List.cons_append, List.cons_append, sliceLoop_cons, h x (List.mem_cons_self x pre)]
    exact ih (fun y hy => h y (List.mem_cons_of_mem x hy))

theorem mapLoop_append (l1 l2 nobj : List (String × Value))
    (h : ∀ p ∈ l1, ∃ v2, nobj.lookup p.1 = some v2 ∧ deepEqual p.2 v2 = some true) :
    mapLoop (l1 ++ l2) nobj = mapLoop l2 nobj := by
  induction l1 with
  | nil => rfl
  | cons p l1 ih =>
    obtain ⟨k, v1⟩ := p
    obtain ⟨v2, hv2, he⟩ := h (k, v1) (List.mem_cons_self _ l1)
    rw [List.cons_append, mapLoop_cons, hv2]
    simp only [he]
    exact ih (fun q hq => h q (List.mem_cons_of_mem _ hq))

/-- Putting `x` and `y` at the same position of a well-formed context gives
two values that compare as `x` and `y` do. -/
theorem deepEqual_plug_eq (c : Ctx) (x y : Value) (hc : c.wellFormed = true) :
    deepEqual (c.plug x) (c.plug y) = deepEqual x y := by
  induction c with
  | hole => rfl
  | arr pre c post ih =>
    simp only [Ctx.wellFormed, Bool.and_eq_true] at hc
    obtain ⟨hsib, hcwf⟩ := hc
    rw [wellFormed_array] at hsib
    have hpre : ∀ v ∈ pre, deepEqual v v = some true := fun v hv =>
      deepEqual_self v (hsib v (List.mem_append_left post hv))
    have hpost : sliceLoop post post = some true :=
      (sliceLoop_eq_true_iff post post rfl).2
        (forall₂_self post (fun v hv => deepEqual_self v (hsib v (List.mem_append_right pre hv))))
    simp only [Ctx.plug]
    rw [deepEqual_array]
    have hlen : ((pre ++ c.plug x :: post).length != (pre ++ c.plug y :: post).length) = false := by
      simp
    rw [hlen, sliceLoop_append_same pre _ _ hpre, sliceLoop_cons, ih hcwf, hpost]
    cases deepEqual x y with
    | none => rfl
    | some b => cases b <;> rfl
  | obj pre k c post ih =>
    simp only [Ctx.wellFormed, Bool.and_eq_true] at hc
    obtain ⟨hsib, hcwf⟩ := hc
    rw [wellFormed_object] at hsib
    obtain ⟨nd, hwf⟩ := hsib
    have nd2 : ((pre ++ (k, c.plug y) :: post).map Prod.fst).Nodup := by
      simpa using nd
    have hpre : ∀ p ∈ pre, ∃ v2, (pre ++ (k, c.plug y) :: post).lookup p.1 = some v2 ∧
        deepEqual p.2 v2 = some true := fun p hp =>
      ⟨p.2, lookup_eq_some_of_mem nd2 (List.mem_append_left _ hp),
        deepEqual_self p.2 (hwf p (List.mem_append_left _ hp))⟩
    have hpost : mapLoop post (pre ++ (k, c.plug y) :: post) = some true :=
      (mapLoop_eq_true_iff _ _).2 (fun p hp =>
        ⟨p.2, lookup_eq_some_of_mem nd2
            (List.mem_append_right _ (List.mem_cons_of_mem _ hp)),
          deepEqual_self p.2 (hwf p (List.mem_append_right _ (List.mem_cons_of_mem _ hp)))⟩)
    have hk : (pre ++ (k, c.plug y) :: post).lookup k = some (c.plug y) :=
      lookup_eq_some_of_mem nd2 (List.mem_append_right _ (List.mem_cons_self _ _))
    simp only [Ctx.plug]
    rw [deepEqual_object]
    have hlen : ((pre ++ (k, c.plug x) :: post).length !=
        (pre ++ (k, c.plug y) :: post).length) = false := by
      simp
    rw [hlen, mapLoop_append pre _ _ hpre, mapLoop_cons, hk]
    simp only [ih hcwf, hpost]
    cases deepEqual x y with
    | none => rfl
    | some b => cases b <;> rfl

/-- C14. Nesting congruence: for a well-formed value with one designated
nested position (reached through array indices and object keys) and all
values `x` and `y` (well-formed ones included), the value with `x` at the
position compares with the value with `y` at the position as `x` compares
with `y`. -/
theorem deepEqual_nesting_congruence (c : Ctx) (x y : Value) (hc : c.wellFormed = true) :
    deepEqual (c.plug x) (c.plug y) = deepEqual x y :=
  deepEqual_plug_eq c x y hc

/-- Witness for C14: `{"x":[1,{"y":2}]}` equals itself, and with the nested
`y` changed from `2` to `3` the comparison is false. -/
theorem deepEqual_nesting_congruence_witness :
    (Ctx.obj [] "x" (.arr [.float ⟨0x3FF0000000000000⟩] (.obj [] "y" .hole []) []) []).wellFormed
      = true ∧
    (Ctx.obj [] "x" (.arr [.float ⟨0x3FF0000000000000⟩] (.obj [] "y" .hole []) []) []).plug
        (.float ⟨0x4000000000000000⟩) =
      .object [("x", .array [.float ⟨0x3FF0000000000000⟩,
        .object [("y", .float ⟨0x4000000000000000⟩)]])] ∧
    deepEqual
      (.object [("x", .array [.float ⟨0x3FF0000000000000⟩,
        .object [("y", .float ⟨0x4000000000000000⟩)]])])
      (.object [("x", .array [.float ⟨0x3FF0000000000000⟩,
        .object [("y", .float ⟨0x4000000000000000⟩)]])]) = some true ∧
    deepEqual
      (.object [("x", .array [.float ⟨0x3FF0000000000000⟩,
        .object [("y", .float ⟨0x4000000000000000⟩)]])])
      (.object [("x", .array [.float ⟨0x3FF0000000000000⟩,
        .object [("y", .float ⟨0x4008000000000000⟩)]])]) = some false := by
  have h2 : deepEqual (.float ⟨0x4000000000000000⟩) (.float ⟨0x4000000000000000⟩) = some true := by
    simp [deepEqual, deepValueEqual, typeSwitchKind, Value.isNil, Float64.eq, Float64.isNaN,
      Float64.isZero, Float64.exponent, Float64.fraction]
  have h3 : deepEqual (.float ⟨0x4000000000000000⟩) (.float ⟨0x4008000000000000⟩) = some false := by
    simp [deepEqual, deepValueEqual, typeSwitchKind, Value.isNil, Float64.eq, Float64.isNaN,
      Float64.isZero, Float64.exponent, Float64.fraction]
  refine ⟨by decide, rfl, ?_, ?_⟩
  · exact (deepEqual_nesting_congruence
      (Ctx.obj [] "x" (.arr [.float ⟨0x3FF0000000000000⟩] (.obj [] "y" .hole []) []) [])
      (.float ⟨0x4000000000000000⟩) (.float ⟨0x4000000000000000⟩) (by decide)).trans h2
  · exact (deepEqual_nesting_congruence
      (Ctx.obj [] "x" (.arr [.float ⟨0x3FF0000000000000⟩] (.obj [] "y" .hole []) []) [])
      (.float ⟨0x4000000000000000⟩) (.float ⟨0x4008000000000000⟩) (by decide)).trans h3

theorem sliceLoop_eq_with (xs ys : List Value) :
    sliceLoop xs ys = sliceLoopWith deepEqual xs ys := by
  induction xs generalizing ys with
  | nil => rw [sliceLoop_nil, sliceLoopWith]
  | cons x xs ih =>
    cases ys with
    | nil => rw [sliceLoop_cons_nil, sliceLoopWith]
    | cons y ys => rw [sliceLoop_cons, sliceLoopWith, ih]

theorem mapLoop_eq_with (oobj nobj : List (String × Value)) :
    mapLoop oobj nobj = mapLoopWith deepEqual nobj oobj := by
  induction oobj with
  | nil => rw [mapLoop_nil, mapLoopWith]
  | cons p rest ih =>
    obtain ⟨k, v1⟩ := p
    rw [mapLoop_cons, mapLoopWith, ih]

theorem deepValueEqual_eq_with (src tgt : Value) (kind : Kind) :
    deepValueEqual src tgt kind = deepValueEqualWith deepEqual src tgt kind := by
  cases kind <;> cases src <;> cases tgt <;>
    simp [deepValueEqual, deepValueEqualWith, sliceLoop_eq_with, mapLoop_eq_with]

theorem deepEqual_eq_with (src tgt : Value) :
    deepEqual src tgt = deepEqualWith deepEqual src tgt := by
  rw [deepEqual, deepEqualWith]
  simp only [deepValueEqual_eq_with]

theorem sliceLoopWith_congr (call1 call2 : Value → Value → Option Bool) (xs ys : List Value)
    (h : ∀ x ∈ xs, ∀ y ∈ ys, call1 x y = call2 x y) :
    sliceLoopWith call1 xs ys = sliceLoopWith call2 xs ys := by
  induction xs generalizing ys with
  | nil => simp [sliceLoopWith]
  | cons x xs ih =>
    cases ys with
    | nil => simp [sliceLoopWith]
    | cons y ys =>
      rw [sliceLoopWith, sliceLoopWith,
        h x (List.mem_cons_self x xs) y (List.mem_cons_self y ys),
        ih ys (fun a ha b hb => h a (List.mem_cons_of_mem x ha) b (List.mem_cons_of_mem y hb))]

theorem mapLoopWith_congr (call1 call2 : Value → Value → Option Bool)
    (oobj nobj : List (String × Value))
    (h : ∀ p ∈ oobj, ∀ v2, (p.1, v2) ∈ nobj → call1 p.2 v2 = call2 p.2 v2) :
    mapLoopWith call1 nobj oobj = mapLoopWith call2 nobj oobj := by
  induction oobj with
  | nil => simp [mapLoopWith]
  | cons p rest ih =>
    obtain ⟨k, v1⟩ := p
    rw [mapLoopWith, mapLoopWith, ih (fun q hq => h q (List.mem_cons_of_mem _ hq))]
    cases hl : nobj.lookup k with
    | none => rfl
    | some v2 =>
      simp only []
      rw [h (k, v1) (List.mem_cons_self _ rest) v2 (mem_of_lookup_eq_some hl)]

/-- The body of `deepEqual` uses its recursive call only on pairs made of a
child of the source and a child of the target. -/
theorem deepEqualWith_congr (call1 call2 : Value → Value → Option Bool) (a b : Value)
    (h : ∀ a2 b2 : Value, a2.child a → b2.child b → call1 a2 b2 = call2 a2 b2) :
    deepEqualWith call1 a b = deepEqualWith call2 a b := by
  cases a with
  | array xs =>
    cases b with
    | array ys =>
      simp only [deepEqualWith, deepValueEqualWith, typeSwitchKind, Value.isNil]
      rw [sliceLoopWith_congr call1 call2 xs ys (fun x hx y hy => h x y hx hy)]
    | _ => simp [deepEqualWith, deepValueEqualWith, typeSwitchKind, Value.isNil]
  | object ka =>
    cases b with
    | object kb =>
      simp only [deepEqualWith, deepValueEqualWith, typeSwitchKind, Value.isNil]
      rw [mapLoopWith_congr call1 call2 ka kb (fun p hp v2 hv2 => h p.2 v2 ⟨p.1, hp⟩ ⟨p.1, hv2⟩)]
    | _ => simp [deepEqualWith, deepValueEqualWith, typeSwitchKind, Value.isNil]
  | _ => cases b <;> simp [deepEqualWith, deepValueEqualWith, typeSwitchKind, Value.isNil]

theorem depth_le_depthList {x : Value} {xs : List Value} (h : x ∈ xs) :
    x.depth ≤ depthList xs := by
  induction xs with
  | nil => simp at h
  | cons y ys ih =>
    rw [depthList]
    rcases List.mem_cons.1 h with rfl | hm
    · exact le_max_left _ _
    · exact le_trans (ih hm) (le_max_right _ _)

theorem depth_le_depthEntries {k : String} {v : Value} {kvs : List (String × Value)}
    (h : (k, v) ∈ kvs) : v.depth ≤ depthEntries kvs := by
  induction kvs with
  | nil => simp at h
  | cons p rest ih =>
    obtain ⟨k2, v2⟩ := p
    rw [depthEntries]
    rcases List.mem_cons.1 h with heq | hm
    · cases heq
      exact le_max_left _ _
    · exact le_trans (ih hm) (le_max_right _ _)

theorem child_depth_lt {v a : Value} (h : v.child a) : v.depth < a.depth := by
  cases a with
  | array xs =>
    rw [Value.depth]
    exact Nat.lt_succ_of_le (depth_le_depthList h)
  | object kvs =>
    obtain ⟨k, hk⟩ := h
    rw [Value.depth]
    exact Nat.lt_succ_of_le (depth_le_depthEntries hk)
  | _ => exact h.elim

theorem child_sizeOf_lt {v a : Value} (h : v.child a) : sizeOf v < sizeOf a := by
  cases a with
  | array xs =>
    have := List.sizeOf_lt_of_mem h
    simp only [Value.array.sizeOf_spec]
    omega
  | object kvs =>
    obtain ⟨k, hk⟩ := h
    have h1 := List.sizeOf_lt_of_mem hk
    have h2 : sizeOf (k, v) = 1 + sizeOf k + sizeOf v := rfl
    simp only [Value.object.sizeOf_spec]
    omega
  | _ => exact h.elim

theorem deepEqualFuel_eq (bot : Value → Value → Option Bool) (n : Nat) :
    ∀ a b : Value, a.depth < n ∨ b.depth < n → deepEqualFuel bot n a b = deepEqual a b := by
  induction n with
  | zero =>
    intro a b h
    rcases h with h | h <;> exact absurd h (Nat.not_lt_zero _)
  | succ n ih =>
    intro a b h
    rw [deepEqualFuel, deepEqual_eq_with a b]
    apply deepEqualWith_congr
    intro a2 b2 ha hb
    apply ih
    rcases h with h | h
    · exact Or.inl (Nat.lt_of_lt_of_le (child_depth_lt ha) (Nat.le_of_lt_succ h))
    · exact Or.inr (Nat.lt_of_lt_of_le (child_depth_lt hb) (Nat.le_of_lt_succ h))

/-- C15. Termination: `deepEqual` is its own body applied to itself; the body
makes its recursive calls only on pairs of a child of the source and a child
of the target; a child is strictly smaller (in depth and in size) than its
parent and the child relation is well-founded; hence unfolding the body more
times than the depth of either argument gives the result of `deepEqual`,
whatever would answer the calls nested deeper. -/
theorem deepEqual_terminates :
    (∀ a b : Value, deepEqual a b = deepEqualWith deepEqual a b) ∧
    (∀ (call1 call2 : Value → Value → Option Bool) (a b : Value),
      (∀ a2 b2 : Value, a2.child a → b2.child b → call1 a2 b2 = call2 a2 b2) →
        deepEqualWith call1 a b = deepEqualWith call2 a b) ∧
    (∀ v a : Value, v.child a → v.depth < a.depth ∧ sizeOf v < sizeOf a) ∧
    WellFounded Value.child ∧
    (∀ (bot : Value → Value → Option Bool) (n : Nat) (a b : Value),
      a.depth < n ∨ b.depth < n → deepEqualFuel bot n a b = deepEqual a b) := by
  refine ⟨deepEqual_eq_with, deepEqualWith_congr,
    fun v a h => ⟨child_depth_lt h, child_sizeOf_lt h⟩, ?_, deepEqualFuel_eq⟩
  exact Subrelation.wf (fun {v a} (h : v.child a) => child_depth_lt h)
    (InvImage.wf Value.depth Nat.lt_wfRel.wf)

theorem Float64.isZero_congr (a b : Float64) (h : a.bits % 2 ^ 64 = b.bits % 2 ^ 64) :
    a.isZero = b.isZero := by
  have ha : a.bits % 2 ^ 63 = a.bits % 2 ^ 64 % 2 ^ 63 :=
    (Nat.mod_mod_of_dvd a.bits (by decide : 2 ^ 63 ∣ 2 ^ 64)).symm
  have hb : b.bits % 2 ^ 63 = b.bits % 2 ^ 64 % 2 ^ 63 :=
    (Nat.mod_mod_of_dvd b.bits (by decide : 2 ^ 63 ∣ 2 ^ 64)).symm
  rw [Float64.isZero, Float64.isZero, ha, hb, h]

theorem Float64.eq_trans (a b c : Float64) (hab : Float64.eq a b = true)
    (hbc : Float64.eq b c = true) : Float64.eq a c = true := by
  simp only [Float64.eq, Bool.and_eq_true, Bool.or_eq_true, Bool.not_eq_true', beq_iff_eq]
    at hab hbc ⊢
  obtain ⟨⟨ha, _⟩, h1⟩ := hab
  obtain ⟨⟨_, hc⟩, h2⟩ := hbc
  refine ⟨⟨ha, hc⟩, ?_⟩
  rcases h1 with ⟨za, zb⟩ | e1
  · rcases h2 with ⟨_, zc⟩ | e2
    · exact Or.inl ⟨za, zc⟩
    · exact Or.inl ⟨za, by rw [← Float64.isZero_congr b c e2]; exact zb⟩
  · rcases h2 with ⟨zb, zc⟩ | e2
    · exact Or.inl ⟨by rw [Float64.isZero_congr a b e1]; exact zb, zc⟩
    · exact Or.inr (e1.trans e2)

theorem forall₂_trans_of_mem {R : Value → Value → Prop} {xs ys zs : List Value}
    (h1 : List.Forall₂ R xs ys) (h2 : List.Forall₂ R ys zs)
    (htrans : ∀ x ∈ xs, ∀ y z, R x y → R y z → R x z) : List.Forall₂ R xs zs := by
  induction h1 generalizing zs with
  | nil =>
    cases h2
    exact List.Forall₂.nil
  | @cons x y xs ys hxy _ ih =>
    cases h2 with
    | cons hyz hrest =>
      exact List.Forall₂.cons (htrans x (List.mem_cons_self x xs) y _ hxy hyz)
        (ih hrest (fun x1 hx1 => htrans x1 (List.mem_cons_of_mem x hx1)))

/-- Two comparisons that return true compose. -/
theorem deepEqual_true_trans (a : Value) :
    ∀ b c : Value, deepEqual a b = some true → deepEqual b c = some true →
      deepEqual a c = some true := by
  induction a using Value.induct with
  | hnull =>
    intro b c h1 h2
    cases b <;> simp [deepEqual, Value.isNil] at h1
    exact h2
  | hbool x =>
    intro b c h1 h2
    cases b <;> simp [deepEqual, deepValueEqual, typeSwitchKind, Value.isNil] at h1
    subst h1
    exact h2
  | hfloat f =>
    intro b c h1 h2
    cases b with
    | float g =>
      cases c with
      | float k =>
        simp only [deepEqual, deepValueEqual, typeSwitchKind, Value.isNil] at h1 h2 ⊢
        simp only [Bool.or_self, Bool.false_eq_true, if_false, bne_self_eq_false,
          Option.some.injEq] at h1 h2 ⊢
        exact Float64.eq_trans f g k h1 h2
      | _ => simp [deepEqual, deepValueEqual, typeSwitchKind, Value.isNil] at h2
    | _ => simp [deepEqual, deepValueEqual, typeSwitchKind, Value.isNil] at h1
  | hstr s =>
    intro b c h1 h2
    cases b <;> simp [deepEqual, deepValueEqual, typeSwitchKind, Value.isNil] at h1
    subst h1
    exact h2
  | hnumber s =>
    intro b c h1 h2
    cases b <;> simp [deepEqual, deepValueEqual, typeSwitchKind, Value.isNil] at h1
    subst h1
    exact h2
  | hother t =>
    intro b c h1 h2
    cases b <;> simp [deepEqual, deepValueEqual, typeSwitchKind, Value.isNil] at h1
  | harray xs ih =>
    intro b c h1 h2
    cases b with
    | array ys =>
      cases c with
      | array zs =>
        rw [deepEqual_array_eq_true_iff] at h1 h2 ⊢
        exact forall₂_trans_of_mem h1 h2 (fun x hx y z => ih x hx y z)
      | _ => simp [deepEqual, deepValueEqual, typeSwitchKind, Value.isNil] at h2
    | _ => simp [deepEqual, deepValueEqual, typeSwitchKind, Value.isNil] at h1
  | hobject ka ih =>
    intro b c h1 h2
    cases b with
    | object kb =>
      cases c with
      | object kc =>
        rw [deepEqual_object_eq_true_iff] at h1 h2 ⊢
        refine ⟨h1.1.trans h2.1, fun p hp => ?_⟩
        obtain ⟨v2, hv2, he2⟩ := h1.2 p hp
        obtain ⟨v3, hv3, he3⟩ := h2.2 (p.1, v2) (mem_of_lookup_eq_some hv2)
        exact ⟨v3, hv3, ih p hp v2 v3 he2 he3⟩
      | _ => simp [deepEqual, deepValueEqual, typeSwitchKind, Value.isNil] at h2
    | _ => simp [deepEqual, deepValueEqual, typeSwitchKind, Value.isNil] at h1

/-- C20. Transitivity: when `deepEqual a b` and `deepEqual b c` return true,
`deepEqual a c` returns true (for all values, well-formed ones included); with
reflexivity and symmetry, returning true is an equivalence relation on
well-formed decoded values. -/
theorem deepEqual_trans :
    (∀ a b c : Value, deepEqual a b = some true → deepEqual b c = some true →
      deepEqual a c = some true) ∧
    Equivalence (fun (a b : { v : Value // v.wellFormed = true }) =>
      deepEqual a.1 b.1 = some true) := by
  refine ⟨deepEqual_true_trans, ?_, ?_, ?_⟩
  · intro a
    exact deepEqual_self a.1 a.2
  · intro a b h
    have ha : a.1.uniqueKeys = true := by
      have := a.2
      simp only [Value.wellFormed, Bool.and_eq_true] at this
      exact this.2
    have hb : b.1.uniqueKeys = true := by
      have := b.2
      simp only [Value.wellFormed, Bool.and_eq_true] at this
      exact this.2
    exact deepEqual_true_symm a.1 b.1 ha hb h
  · intro a b c h1 h2
    exact deepEqual_true_trans a.1 b.1 c.1 h1 h2

/-- Witness for C20 on `{"a":1,"b":2}`, `{"b":2,"a":1}` and `{"a":1,"b":2}`. -/
theorem deepEqual_trans_witness :
    deepEqual (.object [("a", .float ⟨0x3FF0000000000000⟩), ("b", .float ⟨0x4000000000000000⟩)])
      (.object [("b", .float ⟨0x4000000000000000⟩), ("a", .float ⟨0x3FF0000000000000⟩)])
        = some true ∧
    deepEqual (.object [("b", .float ⟨0x4000000000000000⟩), ("a", .float ⟨0x3FF0000000000000⟩)])
      (.object [("a", .float ⟨0x3FF0000000000000⟩), ("b", .float ⟨0x4000000000000000⟩)])
        = some true ∧
    deepEqual (.object [("a", .float ⟨0x3FF0000000000000⟩), ("b", .float ⟨0x4000000000000000⟩)])
      (.object [("a", .float ⟨0x3FF0000000000000⟩), ("b", .float ⟨0x4000000000000000⟩)])
        = some true := by
  have h1 : deepEqual
      (.object [("a", .float ⟨0x3FF0000000000000⟩), ("b", .float ⟨0x4000000000000000⟩)])
      (.object [("b", .float ⟨0x4000000000000000⟩), ("a", .float ⟨0x3FF0000000000000⟩)])
        = some true := by
    simp [deepEqual, deepValueEqual, mapLoop, typeSwitchKind, Value.isNil, List.lookup,
      Float64.eq, Float64.isNaN, Float64.isZero, Float64.exponent, Float64.fraction]
  have h2 : deepEqual
      (.object [("b", .float ⟨0x4000000000000000⟩), ("a", .float ⟨0x3FF0000000000000⟩)])
      (.object [("a", .float ⟨0x3FF0000000000000⟩), ("b", .float ⟨0x4000000000000000⟩)])
        = some true := by
    simp [deepEqual, deepValueEqual, mapLoop, typeSwitchKind, Value.isNil, List.lookup,
      Float64.eq, Float64.isNaN, Float64.isZero, Float64.exponent, Float64.fraction]
  exact ⟨h1, h2, deepEqual_trans.1 _ _ _ h1 h2⟩

theorem forall₂_replace {R : Value → Value → Prop} (pre post : List Value) (x x2 : Value)
    (h : ∀ y, R x y ↔ R x2 y) :
    ∀ ys, List.Forall₂ R (pre ++ x :: post) ys ↔ List.Forall₂ R (pre ++ x2 :: post) ys := by
  induction pre with
  | nil =>
    intro ys
    cases ys with
    | nil => simp
    | cons y ys => simp [List.forall₂_cons, h y]
  | cons p pre ih =>
    intro ys
    cases ys with
    | nil => simp
    | cons y ys => simp [List.forall₂_cons, ih ys]

/-- Reordering the entries of one object inside the source does not change
whether the comparison returns true. -/
theorem deepEqual_true_reorderStep (c : Ctx) (kvs kvs2 : List (String × Value))
    (hperm : List.Perm kvs kvs2) :
    ∀ b : Value, deepEqual (c.plug (.object kvs)) b = some true ↔
      deepEqual (c.plug (.object kvs2)) b = some true := by
  induction c with
  | hole =>
    intro b
    cases b with
    | object kb =>
      simp only [Ctx.plug]
      rw [deepEqual_object_eq_true_iff, deepEqual_object_eq_true_iff, hperm.length_eq]
      exact and_congr Iff.rfl
        ⟨fun h p hp => h p (hperm.mem_iff.2 hp), fun h p hp => h p (hperm.mem_iff.1 hp)⟩
    | _ => simp [Ctx.plug, deepEqual, deepValueEqual, typeSwitchKind, Value.isNil]
  | arr pre c post ih =>
    intro b
    cases b with
    | array ys =>
      simp only [Ctx.plug]
      rw [deepEqual_array_eq_true_iff, deepEqual_array_eq_true_iff]
      exact forall₂_replace pre post _ _ ih ys
    | _ => simp [Ctx.plug, deepEqual, deepValueEqual, typeSwitchKind, Value.isNil]
  | obj pre k c post ih =>
    intro b
    cases b with
    | object kb =>
      simp only [Ctx.plug]
      rw [deepEqual_object_eq_true_iff, deepEqual_object_eq_true_iff]
      simp only [List.length_append, List.length_cons, List.forall_mem_append,
        List.forall_mem_cons]
      have hk : (∃ v2, kb.lookup k = some v2 ∧
            deepEqual (c.plug (.object kvs)) v2 = some true) ↔
          (∃ v2, kb.lookup k = some v2 ∧
            deepEqual (c.plug (.object kvs2)) v2 = some true) :=
        exists_congr (fun v2 => and_congr Iff.rfl (ih v2))
      rw [hk]
    | _ => simp [Ctx.plug, deepEqual, deepValueEqual, typeSwitchKind, Value.isNil]

theorem deepEqual_true_reordering {a a2 : Value} (h : Reordering a a2) (b : Value) :
    deepEqual a b = some true ↔ deepEqual a2 b = some true := by
  induction h with
  | refl => exact Iff.rfl
  | tail _ hstep ih =>
    obtain ⟨c, kvs, kvs2, hperm, rfl, rfl⟩ := hstep
    exact ih.trans (deepEqual_true_reorderStep c kvs kvs2 hperm b)

/-- C19 (as stated) fails: with `a = {"b": u, "c": 1}` (`u` of an unsupported
type) and `b = {"a": 1, "b": u}`, visiting the keys of `a` in the order
`b, c` panics on `u`, while the order `c, b` returns false at the key `c`,
which `b` does not have. -/
theorem deepEqual_visit_order_counterexample :
    Reordering (.object [("b", .other 0), ("c", .float ⟨0x3FF0000000000000⟩)])
      (.object [("c", .float ⟨0x3FF0000000000000⟩), ("b", .other 0)]) ∧
    deepEqual (.object [("b", .other 0), ("c", .float ⟨0x3FF0000000000000⟩)])
      (.object [("a", .float ⟨0x3FF0000000000000⟩), ("b", .other 0)]) = none ∧
    deepEqual (.object [("c", .float ⟨0x3FF0000000000000⟩), ("b", .other 0)])
      (.object [("a", .float ⟨0x3FF0000000000000⟩), ("b", .other 0)]) = some false := by
  refine ⟨Relation.ReflTransGen.single ⟨.hole, _, _, List.Perm.swap _ _ _, rfl, rfl⟩, ?_, ?_⟩ <;>
    simp [deepEqual, deepValueEqual, mapLoop, typeSwitchKind, Value.isNil, List.lookup]

/-- C19 (amended). The true outcome does not depend on the order in which
keys are visited: for all values `a` and `b` and every reordering `a2` of the
entries of objects inside `a`, `deepEqual a b` returns true exactly when
`deepEqual a2 b` returns true; hence two visit orders that both return a
boolean return the same boolean. -/
theorem deepEqual_visit_order (a a2 b : Value) (h : Reordering a a2) :
    (deepEqual a b = some true ↔ deepEqual a2 b = some true) ∧
      ∀ x y : Bool, deepEqual a b = some x → deepEqual a2 b = some y → x = y := by
  have hiff := deepEqual_true_reordering h b
  refine ⟨hiff, ?_⟩
  intro x y hx hy
  cases x <;> cases y
  · rfl
  · rw [hiff.2 hy] at hx
    cases hx
  · rw [hiff.1 hx] at hy
    cases hy
  · rfl

/-- Witness for C19 (amended): `{"a":1,"b":[{"x":null,"y":true}]}` with the
inner object reordered, against `{"a":1,"b":[{"x":null,"y":true}]}`. -/
theorem deepEqual_visit_order_witness :
    Reordering
      (.object [("a", .float ⟨0x3FF0000000000000⟩),
        ("b", .array [.object [("x", .null), ("y", .bool true)]])])
      (.object [("a", .float ⟨0x3FF0000000000000⟩),
        ("b", .array [.object [("y", .bool true), ("x", .null)]])]) ∧
    (deepEqual
      (.object [("a", .float ⟨0x3FF0000000000000⟩),
        ("b", .array [.object [("x", .null), ("y", .bool true)]])])
      (.object [("a", .float ⟨0x3FF0000000000000⟩),
        ("b", .array [.object [("x", .null), ("y", .bool true)]])]) = some true ↔
    deepEqual
      (.object [("a", .float ⟨0x3FF0000000000000⟩),
        ("b", .array [.object [("y", .bool true), ("x", .null)]])])
      (.object [("a", .float ⟨0x3FF0000000000000⟩),
        ("b", .array [.object [("x", .null), ("y", .bool true)]])]) = some true) := by
  have hr : Reordering
      (.object [("a", .float ⟨0x3FF0000000000000⟩),
        ("b", .array [.object [("x", .null), ("y", .bool true)]])])
      (.object [("a", .float ⟨0x3FF0000000000000⟩),
        ("b", .array [.object [("y", .bool true), ("x", .null)]])]) :=
    Relation.ReflTransGen.single
      ⟨.obj [("a", .float ⟨0x3FF0000000000000⟩)] "b" (.arr [] .hole []) [],
        [("x", .null), ("y", .bool true)], [("y", .bool true), ("x", .null)],
        List.Perm.swap _ _ _, rfl, rfl⟩
  exact ⟨hr, (deepEqual_visit_order _ _ _ hr).1⟩

theorem mem_foldl_insert (ptrs : List String) (s : Finset String) (p : String) :
    p ∈ ptrs.foldl (fun m ptr => insert ptr m) s ↔ p ∈ s ∨ p ∈ ptrs := by
  induction ptrs generalizing s with
  | nil => simp
  | cons q ptrs ih =>
    rw [List.foldl_cons, ih, Finset.mem_insert, List.mem_cons]
    constructor
    · rintro ((h | h) | h)
      · exact Or.inr (Or.inl h)
      · exact Or.inl h
      · exact Or.inr (Or.inr h)
    · rintro (h | h | h)
      · exact Or.inl (Or.inr h)
      · exact Or.inl (Or.inl h)
      · exact Or.inr h

theorem foldl_insert_eq_toFinset (ptrs : List String) :
    ptrs.foldl (fun m ptr => insert ptr m) (∅ : Finset String) = ptrs.toFinset := by
  ext p
  rw [mem_foldl_insert, List.mem_toFinset]
  simp

/-- C18. The option `Ignores` defines the ignore set: after `Ignores ptrs`, a
pointer is in the ignore set exactly when it occurs in `ptrs`, whatever the
set was before; duplicates collapse (the set has as many members as `ptrs`
has distinct pointers); every other field of the differ is unchanged. -/
theorem Ignores_spec {M U R : Type} (d : Differ M U R) (ptrs : List String) :
    (∀ p : String, p ∈ (Ignores ptrs d).ignoreSet ↔ p ∈ ptrs) ∧
    (Ignores ptrs d).opts.ignores = some ptrs.toFinset ∧
    (Ignores ptrs d).ignoreSet.card = ptrs.dedup.length ∧
    (Ignores ptrs d).opts.factorize = d.opts.factorize ∧
    (Ignores ptrs d).opts.rationalize = d.opts.rationalize ∧
    (Ignores ptrs d).opts.equivalent = d.opts.equivalent ∧
    (Ignores ptrs d).opts.invertible = d.opts.invertible ∧
    (Ignores ptrs d).opts.omitEmpty = d.opts.omitEmpty ∧
    (Ignores ptrs d).opts.marshal = d.opts.marshal ∧
    (Ignores ptrs d).opts.unmarshal = d.opts.unmarshal ∧
    (Ignores ptrs d).rest = d.rest := by
  have hset : (Ignores ptrs d).ignoreSet = ptrs.toFinset := by
    simp only [Differ.ignoreSet, Ignores, Option.getD_some]
    exact foldl_insert_eq_toFinset ptrs
  refine ⟨fun p => ?_, ?_, ?_, rfl, rfl, rfl, rfl, rfl, rfl, rfl, rfl⟩
  · rw [hset, List.mem_toFinset]
  · simp only [Ignores]
    rw [foldl_insert_eq_toFinset]
  · rw [hset, List.card_toFinset]

/-- C17 (as stated) fails: `Ignores("/a")` then `Ignores("/b")` leaves the
ignore set `{"/b"}`, the other order leaves `{"/a"}`; the later call wins. -/
theorem option_order_counterexample :
    "/b" ∈ (Ignores (M := Unit) (U := Unit) (R := Unit) ["/b"]
        (Ignores ["/a"] ⟨⟨false, false, false, false, none, false, (), ()⟩, ()⟩)).ignoreSet ∧
    "/b" ∉ (Ignores (M := Unit) (U := Unit) (R := Unit) ["/a"]
        (Ignores ["/b"] ⟨⟨false, false, false, false, none, false, (), ()⟩, ()⟩)).ignoreSet ∧
    (OptionCall.ignores ["/b"]).option
        ((OptionCall.ignores ["/a"]).option
          (⟨⟨false, false, false, false, none, false, (), ()⟩, ()⟩ : Differ Unit Unit Unit)) ≠
      (OptionCall.ignores ["/a"]).option
        ((OptionCall.ignores ["/b"]).option
          (⟨⟨false, false, false, false, none, false, (), ()⟩, ()⟩ : Differ Unit Unit Unit)) := by
  have h1 : "/b" ∈ (Ignores (M := Unit) (U := Unit) (R := Unit) ["/b"]
      (Ignores ["/a"] ⟨⟨false, false, false, false, none, false, (), ()⟩, ()⟩)).ignoreSet := by
    simp [Differ.ignoreSet, Ignores]
  have h2 : "/b" ∉ (Ignores (M := Unit) (U := Unit) (R := Unit) ["/a"]
      (Ignores ["/b"] ⟨⟨false, false, false, false, none, false, (), ()⟩, ()⟩)).ignoreSet := by
    simp [Differ.ignoreSet, Ignores]
  refine ⟨h1, h2, fun h => h2 ?_⟩
  have h3 := congrArg Differ.ignoreSet h
  simp only [OptionCall.option] at h3
  rw [← h3]
  exact h1

/-- C17 (amended). Applying `o1` then `o2` gives the same differ as applying
`o2` then `o1` exactly when the two calls do not assign different values to
the same field: any two calls commute except two `Ignores` with different
sets of pointers, two `MarshalFunc` with different functions and two
`UnmarshalFunc` with different functions, where the later call wins. -/
theorem option_order {M U R : Type} (d : Differ M U R) (o1 o2 : OptionCall M U) :
    o2.option (o1.option d) = o1.option (o2.option d) ↔ ¬ o1.conflict o2 := by
  cases o1 <;> cases o2 <;>
    simp [OptionCall.option, OptionCall.conflict, Factorize, Rationalize, Equivalent,
      Invertible, Ignores, OmitEmpty, MarshalFunc, UnmarshalFunc, Differ.mk.injEq,
      Options.mk.injEq, foldl_insert_eq_toFinset, Finset.ext_iff, eq_comm]

end JsonDiff
